import Mathlib

/-!
Shallow embedding of the HanOS VFS core (src/kernel/fs/vfs.c) and proofs of
the specified properties of its file operations.

All size_t quantities are modelled as Nat reduced modulo 2^64 where the C
arithmetic can wrap, and int64_t values as Int obtained by two's-complement
reinterpretation of the 64-bit pattern.
-/

/-- 2^64, the modulus of C size_t arithmetic on the target. -/
def U64 : Nat := 18446744073709551616

/-- 2^63, the first bit pattern that reinterprets as a negative int64_t. -/
def I63 : Nat := 9223372036854775808

/-- Mathematical value of the int64_t that a size_t bit pattern converts to
(two's-complement reinterpretation of the low 64 bits). -/
def toInt64 (u : Nat) : Int :=
  if u % U64 < I63 then ((u % U64 : Nat) : Int) else ((u % U64 : Nat) : Int) - (U64 : Int)

/-- size_t addition (wraps modulo 2^64). -/
def uadd64 (a b : Nat) : Nat := (a + b) % U64

/-- size_t subtraction (wraps modulo 2^64). -/
def usub64 (a b : Nat) : Nat := (a % U64 + (U64 - b % U64)) % U64

theorem U64_eq : U64 = 2 ^ 64 := by norm_num [U64]

theorem I63_eq : I63 = 2 ^ 63 := by norm_num [I63]

theorem toInt64_of_lt (u : Nat) (h : u < I63) : toInt64 u = (u : Int) := by
  have hU : u < U64 := by unfold U64; unfold I63 at h; omega
  simp [toInt64, Nat.mod_eq_of_lt hU, h]

theorem uadd64_of_lt (a b : Nat) (h : a + b < U64) : uadd64 a b = a + b := by
  simp [uadd64, Nat.mod_eq_of_lt h]

theorem usub64_of_le (a b : Nat) (ha : a < U64) (hb : b ≤ a) : usub64 a b = a - b := by
  have hbU : b < U64 := lt_of_le_of_lt hb ha
  unfold usub64
  rw [Nat.mod_eq_of_lt ha, Nat.mod_eq_of_lt hbU]
  have h1 : a + (U64 - b) = U64 + (a - b) := by omega
  rw [h1, Nat.add_mod_left, Nat.mod_eq_of_lt (by omega)]

theorem usub64_of_gt (a b : Nat) (ha : a < U64) (hb : b < U64) (h : a < b) :
    usub64 a b = U64 - (b - a) := by
  unfold usub64
  rw [Nat.mod_eq_of_lt ha, Nat.mod_eq_of_lt hb, Nat.mod_eq_of_lt (by omega)]
  omega

/-- Seek whence encodings. Modelled from the spec: the header fs/vfs.h that
defines them is not in src/, but vfs.c's case comments and the spec agree
that SEEK_SET=3, SEEK_CUR=1, SEEK_END=2. -/
def SEEK_SET : Int := 3

/-- SEEK_CUR = 1 (see SEEK_SET). -/
def SEEK_CUR : Int := 1

/-- SEEK_END = 2 (see SEEK_SET). -/
def SEEK_END : Int := 2

/-- The slice of descriptor/inode state that vfs_seek and vfs_read touch:
the descriptor's byte seek position and the inode's size, both size_t.
Modelled from the spec where the struct layout (fs/vfs.h) is absent from
src/: "a byte seek position" in the node descriptor, "a size in bytes" in
the inode. -/
structure SeekState where
  seek_pos : Nat
  size : Nat
deriving DecidableEq

/-- Result of vfs_seek: the int64_t return value and the descriptor state
after the call. -/
structure SeekResult where
  ret : Int
  fd : SeekState
deriving DecidableEq

/-- Embedding of vfs_seek (src/kernel/fs/vfs.c:396-435), assuming the handle
resolves to descriptor fd. offset starts at -1; the switch assigns it from
size_t arithmetic implicitly converted to int64_t; an offset above
(int64_t)size or below 0 fails with -1 and leaves the descriptor alone,
otherwise the offset is stored as the new seek position and returned. -/
def vfs_seek (fd : SeekState) (pos : Nat) (whence : Int) : SeekResult :=
  let offset : Int :=
    if whence = SEEK_SET then toInt64 (pos % U64)
    else if whence = SEEK_CUR then toInt64 (uadd64 fd.seek_pos pos)
    else if whence = SEEK_END then toInt64 (usub64 fd.size pos)
    else -1
  if offset > toInt64 fd.size ∨ offset < 0 then
    ⟨-1, fd⟩
  else if offset ≥ 0 ∧ offset ≤ toInt64 fd.size then
    ⟨offset, ⟨offset.toNat, fd.size⟩⟩
  else
    ⟨-1, fd⟩

/-- The target offset the spec prescribes for each whence value, written from
the spec's words ("SEEK_SET → pos; SEEK_CUR → seek_pos + pos; SEEK_END →
size - pos"), to be compared against the code's vfs_seek. -/
def spec_seek_target (fd : SeekState) (pos : Nat) (whence : Int) : Int :=
  if whence = SEEK_SET then (pos : Int)
  else if whence = SEEK_CUR then (fd.seek_pos : Int) + (pos : Int)
  else (fd.size : Int) - (pos : Int)

theorem toInt64_of_ge (u : Nat) (h1 : I63 ≤ u) (h2 : u < U64) :
    toInt64 u = (u : Int) - (U64 : Int) := by
  rw [toInt64, Nat.mod_eq_of_lt h2, if_neg (by omega)]

theorem I63_lt_U64 : I63 < U64 := by norm_num [I63, U64]

/-- Closed form of vfs_seek for the three recognized whence values, assuming
sizes and positions below 2^63 (so no size_t pattern reinterprets as a
negative int64_t by accident) and the descriptor invariant seek_pos ≤ size:
the call succeeds storing and returning the spec's target offset exactly when
that offset lies in [0, size], and otherwise fails with -1 leaving the
descriptor unchanged. -/
theorem vfs_seek_closed_form (fd : SeekState) (p : Nat) (whence : Int)
    (hp : p < I63) (hS : fd.size < I63) (hsp : fd.seek_pos ≤ fd.size)
    (hw : whence = SEEK_SET ∨ whence = SEEK_CUR ∨ whence = SEEK_END) :
    vfs_seek fd p whence =
      if 0 ≤ spec_seek_target fd p whence ∧ spec_seek_target fd p whence ≤ (fd.size : Int)
      then ⟨spec_seek_target fd p whence, ⟨(spec_seek_target fd p whence).toNat, fd.size⟩⟩
      else ⟨-1, fd⟩ := by
  have h2 : toInt64 fd.size = (fd.size : Int) := toInt64_of_lt _ hS
  rcases hw with hw | hw | hw <;> subst hw
  · -- SEEK_SET: offset = pos
    have hpU : p % U64 = p := Nat.mod_eq_of_lt (lt_trans hp I63_lt_U64)
    have h1 : toInt64 (p % U64) = (p : Int) := by rw [hpU]; exact toInt64_of_lt p hp
    have hspec : spec_seek_target fd p SEEK_SET = (p : Int) := by
      unfold spec_seek_target SEEK_SET; norm_num
    rw [hspec]
    simp only [vfs_seek, SEEK_SET, SEEK_CUR, SEEK_END, h1, h2]
    norm_num
    intro h
    rw [if_neg (by omega)]
  · -- SEEK_CUR: offset = seek_pos + pos
    have hspec : spec_seek_target fd p SEEK_CUR = (fd.seek_pos : Int) + (p : Int) := by
      unfold spec_seek_target SEEK_SET SEEK_CUR; norm_num
    rw [hspec]
    by_cases hc : fd.seek_pos + p < I63
    · have h1 : toInt64 (uadd64 fd.seek_pos p) = (fd.seek_pos : Int) + (p : Int) := by
        rw [uadd64, Nat.mod_eq_of_lt (lt_trans hc I63_lt_U64)]
        rw [toInt64_of_lt _ hc]; push_cast; ring
      simp only [vfs_seek, SEEK_SET, SEEK_CUR, SEEK_END, h1, h2]
      norm_num
      intro h
      rw [if_neg (by omega)]
    · have h1 : toInt64 (uadd64 fd.seek_pos p) =
          (fd.seek_pos : Int) + (p : Int) - (U64 : Int) := by
        have hlt : fd.seek_pos + p < U64 := by unfold I63 U64 at *; omega
        rw [uadd64, Nat.mod_eq_of_lt hlt, toInt64_of_ge _ (by omega) hlt]
        push_cast; ring
      simp only [vfs_seek, SEEK_SET, SEEK_CUR, SEEK_END, h1, h2]
      rw [if_pos (by unfold I63 U64 at *; omega), if_neg (by unfold I63 U64 at *; omega)]
  · -- SEEK_END: offset = size - pos
    have hspec : spec_seek_target fd p SEEK_END = (fd.size : Int) - (p : Int) := by
      unfold spec_seek_target SEEK_SET SEEK_CUR SEEK_END; norm_num
    rw [hspec]
    by_cases hc : p ≤ fd.size
    · have h1 : toInt64 (usub64 fd.size p) = (fd.size : Int) - (p : Int) := by
        rw [usub64_of_le _ _ (lt_trans hS I63_lt_U64) hc, toInt64_of_lt _ (by omega)]
        push_cast [hc]; ring
      simp only [vfs_seek, SEEK_SET, SEEK_CUR, SEEK_END, h1, h2]
      norm_num
      intro h
      exact absurd h (by omega)
    · have h1 : toInt64 (usub64 fd.size p) = (fd.size : Int) - (p : Int) := by
        rw [usub64_of_gt _ _ (lt_trans hS I63_lt_U64) (lt_trans hp I63_lt_U64) (by omega)]
        rw [toInt64_of_ge _ (by unfold I63 U64 at *; omega) (by unfold I63 U64 at *; omega)]
        push_cast [show p - fd.size ≤ U64 by unfold I63 U64 at *; omega,
          show fd.size ≤ p by omega]
        omega
      simp only [vfs_seek, SEEK_SET, SEEK_CUR, SEEK_END, h1, h2]
      rw [if_pos (by omega), if_neg (by omega)]

/-- C1: for an open handle on a file of size S, vfs_seek computes the target
offset as p for SEEK_SET, seek_pos + p for SEEK_CUR, S - p for SEEK_END; it
fails with -1 exactly when that offset lies outside [0, S], and otherwise
stores it as the new seek position and returns it; in particular
seek(h, p, SEEK_SET) succeeds iff 0 ≤ p ≤ S. -/
theorem C1_vfs_seek_target_and_bounds (fd : SeekState) (p : Nat) (whence : Int)
    (hp : p < I63) (hS : fd.size < I63) (hsp : fd.seek_pos ≤ fd.size)
    (hw : whence = SEEK_SET ∨ whence = SEEK_CUR ∨ whence = SEEK_END) :
    ((0 ≤ spec_seek_target fd p whence ∧ spec_seek_target fd p whence ≤ (fd.size : Int)) →
      vfs_seek fd p whence =
        ⟨spec_seek_target fd p whence, ⟨(spec_seek_target fd p whence).toNat, fd.size⟩⟩) ∧
    (¬ (0 ≤ spec_seek_target fd p whence ∧ spec_seek_target fd p whence ≤ (fd.size : Int)) →
      vfs_seek fd p whence = ⟨-1, fd⟩) ∧
    ((vfs_seek fd p SEEK_SET).ret ≠ -1 ↔ p ≤ fd.size) := by
  have hcf := vfs_seek_closed_form fd p whence hp hS hsp hw
  have hcfs := vfs_seek_closed_form fd p SEEK_SET hp hS hsp (Or.inl rfl)
  have hspecs : spec_seek_target fd p SEEK_SET = (p : Int) := by
    unfold spec_seek_target SEEK_SET; norm_num
  refine ⟨?_, ?_, ?_⟩
  · intro h; rw [hcf, if_pos h]
  · intro h; rw [hcf, if_neg h]
  · rw [hcfs, hspecs]
    by_cases hc : p ≤ fd.size
    · rw [if_pos (by omega)]
      constructor
      · intro _; exact hc
      · intro _; simp only []; omega
    · rw [if_neg (by omega)]
      constructor
      · intro hne; exact absurd rfl hne
      · intro h; exact absurd h hc

/-- Witness for C1 at fd = ⟨2, 10⟩, p = 5, whence = SEEK_CUR. -/
theorem C1_vfs_seek_target_and_bounds_witness :
    (5 : Nat) < I63 ∧ (10 : Nat) < I63 ∧ (2 : Nat) ≤ (10 : Nat) ∧
    (SEEK_CUR = SEEK_SET ∨ SEEK_CUR = SEEK_CUR ∨ SEEK_CUR = SEEK_END) ∧
    (((0 ≤ spec_seek_target ⟨2, 10⟩ 5 SEEK_CUR ∧
        spec_seek_target ⟨2, 10⟩ 5 SEEK_CUR ≤ ((10 : Nat) : Int)) →
      vfs_seek ⟨2, 10⟩ 5 SEEK_CUR =
        ⟨spec_seek_target ⟨2, 10⟩ 5 SEEK_CUR,
         ⟨(spec_seek_target ⟨2, 10⟩ 5 SEEK_CUR).toNat, 10⟩⟩) ∧
    (¬ (0 ≤ spec_seek_target ⟨2, 10⟩ 5 SEEK_CUR ∧
        spec_seek_target ⟨2, 10⟩ 5 SEEK_CUR ≤ ((10 : Nat) : Int)) →
      vfs_seek ⟨2, 10⟩ 5 SEEK_CUR = ⟨-1, ⟨2, 10⟩⟩) ∧
    ((vfs_seek ⟨2, 10⟩ 5 SEEK_SET).ret ≠ -1 ↔ (5 : Nat) ≤ (10 : Nat))) :=
  ⟨by norm_num [I63], by norm_num [I63], by norm_num,
   Or.inr (Or.inl rfl),
   C1_vfs_seek_target_and_bounds ⟨2, 10⟩ 5 SEEK_CUR (by norm_num [I63])
     (by norm_num [I63]) (by norm_num) (Or.inr (Or.inl rfl))⟩

/-- C10: vfs_seek with a whence outside {SEEK_SET, SEEK_CUR, SEEK_END} leaves
offset at its initial -1, which the bounds check rejects: the call returns -1
and the descriptor's seek position is unchanged. -/
theorem C10_vfs_seek_bad_whence (fd : SeekState) (p : Nat) (whence : Int)
    (hw : whence ≠ SEEK_SET ∧ whence ≠ SEEK_CUR ∧ whence ≠ SEEK_END) :
    vfs_seek fd p whence = ⟨-1, fd⟩ := by
  simp only [vfs_seek, if_neg hw.1, if_neg hw.2.1, if_neg hw.2.2]
  rw [if_pos (Or.inr (by norm_num))]

/-- Witness for C10 at whence = 0 (not a recognized whence value). -/
theorem C10_vfs_seek_bad_whence_witness :
    ((0 : Int) ≠ SEEK_SET ∧ (0 : Int) ≠ SEEK_CUR ∧ (0 : Int) ≠ SEEK_END) ∧
    vfs_seek ⟨3, 7⟩ 2 0 = ⟨-1, ⟨3, 7⟩⟩ :=
  ⟨⟨by norm_num [SEEK_SET], by norm_num [SEEK_CUR], by norm_num [SEEK_END]⟩,
   C10_vfs_seek_bad_whence ⟨3, 7⟩ 2 0
     ⟨by norm_num [SEEK_SET], by norm_num [SEEK_CUR], by norm_num [SEEK_END]⟩⟩

/-- Result of vfs_read: the int64_t return value, the descriptor state after
the call, and the length the back-end fs->read was invoked with (none when
the back-end was not called). -/
structure ReadResult where
  ret : Int
  fd : SeekState
  backend_len : Option Nat
deriving DecidableEq

/-- Embedding of vfs_read (src/kernel/fs/vfs.c:287-318), assuming the handle
resolves to descriptor fd. is_tty states that the handle equals the reserved
ttyfh; rstatus is the int64_t the back-end fs->read returns when invoked.
If seek_pos + len overruns the inode size and the handle is not the TTY
handle, len is truncated to size - seek_pos, and a zero truncated length
returns 0 before reaching the back-end; a back-end status of -1 zeroes len;
seek_pos advances by the final len, which is returned. -/
def vfs_read (fd : SeekState) (len0 : Nat) (is_tty : Bool) (rstatus : Int) :
    ReadResult :=
  let len := len0 % U64
  if uadd64 fd.seek_pos len > fd.size ∧ is_tty = false then
    let len2 := usub64 fd.size fd.seek_pos
    if len2 = 0 then ⟨0, fd, none⟩
    else if rstatus = -1 then ⟨0, fd, some len2⟩
    else ⟨toInt64 len2, ⟨uadd64 fd.seek_pos len2, fd.size⟩, some len2⟩
  else
    if rstatus = -1 then ⟨0, fd, some len⟩
    else ⟨toInt64 len, ⟨uadd64 fd.seek_pos len, fd.size⟩, some len⟩

/-- C2: for an open non-TTY handle, vfs_read with seek_pos + len > size
truncates len to size - seek_pos and returns 0 without calling the back-end
when the truncated length is zero; a failed back-end read (-1) yields 0 with
seek_pos unchanged; a successful one advances seek_pos by the possibly
truncated len and returns it; the TTY handle is exempt from truncation. -/
theorem C2_vfs_read_truncation (fd : SeekState) (len : Nat) (rstatus : Int)
    (hsp : fd.seek_pos ≤ fd.size) (hS : fd.size < I63) (hl : len < I63) :
    (fd.seek_pos + len > fd.size →
      (fd.size - fd.seek_pos = 0 →
        vfs_read fd len false rstatus = ⟨0, fd, none⟩) ∧
      (fd.size - fd.seek_pos ≠ 0 →
        (rstatus = -1 →
          vfs_read fd len false rstatus = ⟨0, fd, some (fd.size - fd.seek_pos)⟩) ∧
        (rstatus ≠ -1 →
          vfs_read fd len false rstatus =
            ⟨((fd.size - fd.seek_pos : Nat) : Int), ⟨fd.size, fd.size⟩,
             some (fd.size - fd.seek_pos)⟩))) ∧
    (fd.seek_pos + len ≤ fd.size →
      (rstatus = -1 → vfs_read fd len false rstatus = ⟨0, fd, some len⟩) ∧
      (rstatus ≠ -1 → vfs_read fd len false rstatus =
        ⟨(len : Int), ⟨fd.seek_pos + len, fd.size⟩, some len⟩)) ∧
    ((vfs_read fd len true rstatus).backend_len = some len) := by
  have hlU : len % U64 = len := Nat.mod_eq_of_lt (lt_trans hl I63_lt_U64)
  have hsum : fd.seek_pos + len < U64 := by unfold I63 U64 at *; omega
  have hadd : uadd64 fd.seek_pos len = fd.seek_pos + len := uadd64_of_lt _ _ hsum
  have hsub : usub64 fd.size fd.seek_pos = fd.size - fd.seek_pos :=
    usub64_of_le _ _ (lt_trans hS I63_lt_U64) hsp
  refine ⟨?_, ?_, ?_⟩
  · intro hover
    constructor
    · intro hz
      simp only [vfs_read, hlU, hadd, hsub]
      rw [if_pos ⟨hover, trivial⟩, if_pos hz]
    · intro hnz
      constructor
      · intro hrs
        simp only [vfs_read, hlU, hadd, hsub]
        rw [if_pos ⟨hover, trivial⟩, if_neg hnz, if_pos hrs]
      · intro hrs
        simp only [vfs_read, hlU, hadd, hsub]
        rw [if_pos ⟨hover, trivial⟩, if_neg hnz, if_neg hrs]
        have h1 : toInt64 (fd.size - fd.seek_pos) = ((fd.size - fd.seek_pos : Nat) : Int) :=
          toInt64_of_lt _ (by omega)
        have h2 : uadd64 fd.seek_pos (fd.size - fd.seek_pos) = fd.size := by
          rw [uadd64_of_lt _ _ (by unfold I63 U64 at *; omega)]; omega
        rw [h1, h2]
  · intro hle
    have hnover : ¬ (uadd64 fd.seek_pos len > fd.size ∧ True) := by
      rw [hadd]; intro hcon; have := hcon.1; omega
    constructor
    · intro hrs
      simp only [vfs_read, hlU]
      rw [if_neg hnover, if_pos hrs]
    · intro hrs
      simp only [vfs_read, hlU]
      rw [if_neg hnover, if_neg hrs, toInt64_of_lt _ hl, hadd]
  · simp only [vfs_read, hlU]
    rw [if_neg (by intro hcon; exact Bool.noConfusion hcon.2)]
    by_cases hrs : rstatus = -1
    · rw [if_pos hrs]
    · rw [if_neg hrs]

/-- Witness for C2 at fd = ⟨4, 10⟩, len = 8, back-end success status 8. -/
theorem C2_vfs_read_truncation_witness :
    ((4 : Nat) ≤ (10 : Nat) ∧ (10 : Nat) < I63 ∧ (8 : Nat) < I63) ∧
    vfs_read ⟨4, 10⟩ 8 false 8 = ⟨6, ⟨10, 10⟩, some 6⟩ := by
  have h := C2_vfs_read_truncation ⟨4, 10⟩ 8 8 (by norm_num) (by norm_num [I63])
    (by norm_num [I63])
  refine ⟨⟨by norm_num, by norm_num [I63], by norm_num [I63]⟩, ?_⟩
  have h2 := ((h.1 (by norm_num)).2 (by norm_num)).2 (by norm_num)
  simpa using h2

/-- The slice of state vfs_write touches: the descriptor's seek position, the
inode's size, and the tnode's st_size stat field. Modelled from the spec
where the struct layout (fs/vfs.h) is absent from src/. -/
structure WriteState where
  seek_pos : Nat
  size : Nat
  st_size : Nat
deriving DecidableEq

/-- Back-end calls observable during vfs_write, in program order. -/
inductive WriteEvent
  | sync
  | write (off len : Nat)
deriving DecidableEq

/-- Result of vfs_write: the int64_t return value, the state after the call,
and the back-end calls made. -/
structure WriteResult where
  ret : Int
  st : WriteState
  events : List WriteEvent
deriving DecidableEq

/-- Embedding of vfs_write (src/kernel/fs/vfs.c:363-393), assuming the handle
resolves to a descriptor. read_only states that the descriptor mode is
VFS_MODE_READ; has_sync that fs->sync is non-NULL; wstatus is the int64_t
fs->write returns. A read-only handle returns 0 untouched. Otherwise, if
seek_pos + len overruns the size, the size grows to seek_pos + len and sync
runs when present; then fs->write runs, a -1 status zeroing len; finally the
inode size is copied into the tnode's st_size and len is returned. -/
def vfs_write (st : WriteState) (len0 : Nat) (read_only has_sync : Bool)
    (wstatus : Int) : WriteResult :=
  if read_only = true then ⟨0, st, []⟩
  else
    let len := len0 % U64
    let size1 : Nat :=
      if uadd64 st.seek_pos len > st.size then uadd64 st.seek_pos len else st.size
    let ev1 : List WriteEvent :=
      if uadd64 st.seek_pos len > st.size ∧ has_sync = true then [WriteEvent.sync] else []
    let len2 : Nat := if wstatus = -1 then 0 else len
    ⟨toInt64 len2, ⟨st.seek_pos, size1, size1⟩, ev1 ++ [WriteEvent.write st.seek_pos len]⟩

/-- Closed form of vfs_write for a non-read-only descriptor with seek
position, size and length below 2^63. -/
theorem vfs_write_closed_form (st : WriteState) (len : Nat) (has_sync : Bool)
    (wstatus : Int) (hsp : st.seek_pos < I63) (hS : st.size < I63) (hl : len < I63) :
    vfs_write st len false has_sync wstatus =
      ⟨if wstatus = -1 then 0 else (len : Int),
       ⟨st.seek_pos,
        if st.seek_pos + len > st.size then st.seek_pos + len else st.size,
        if st.seek_pos + len > st.size then st.seek_pos + len else st.size⟩,
       (if st.seek_pos + len > st.size ∧ has_sync = true then [WriteEvent.sync] else []) ++
         [WriteEvent.write st.seek_pos len]⟩ := by
  have hlU : len % U64 = len := Nat.mod_eq_of_lt (lt_trans hl I63_lt_U64)
  have hadd : uadd64 st.seek_pos len = st.seek_pos + len :=
    uadd64_of_lt _ _ (by unfold I63 U64 at *; omega)
  have ht : toInt64 (if wstatus = -1 then 0 else len) =
      (if wstatus = -1 then 0 else (len : Int)) := by
    by_cases h : wstatus = -1
    · simp [h, toInt64, U64, I63]
    · simp only [h, if_neg h, if_false]
      exact toInt64_of_lt _ hl
  simp only [vfs_write, hlU, hadd]
  rw [if_neg (by intro hcon; exact Bool.noConfusion hcon)]
  rw [ht]

/-- C3: for a non-read-only handle, vfs_write with seek_pos + len > size sets
the inode size to seek_pos + len (running the provider's sync, when present,
before the provider's write) and copies the grown inode size into the tnode's
st_size before returning; the return value is len on back-end success and 0
on back-end failure. -/
theorem C3_vfs_write_growth (st : WriteState) (len : Nat) (has_sync : Bool)
    (wstatus : Int) (hsp : st.seek_pos < I63) (hS : st.size < I63) (hl : len < I63) :
    (st.seek_pos + len > st.size →
      (vfs_write st len false has_sync wstatus).st.size = st.seek_pos + len ∧
      (vfs_write st len false has_sync wstatus).events =
        (if has_sync = true then [WriteEvent.sync] else []) ++
          [WriteEvent.write st.seek_pos len]) ∧
    (vfs_write st len false has_sync wstatus).st.st_size =
      (vfs_write st len false has_sync wstatus).st.size ∧
    (wstatus = -1 → (vfs_write st len false has_sync wstatus).ret = 0) ∧
    (wstatus ≠ -1 → (vfs_write st len false has_sync wstatus).ret = (len : Int)) := by
  rw [vfs_write_closed_form st len has_sync wstatus hsp hS hl]
  refine ⟨?_, ?_, ?_, ?_⟩
  · intro hover
    constructor
    · simp only []
      rw [if_pos hover]
    · simp only []
      by_cases hsy : has_sync = true
      · rw [if_pos ⟨hover, hsy⟩, if_pos hsy]
      · rw [if_neg (by intro hcon; exact hsy hcon.2), if_neg hsy]
  · simp only []
  · intro hrs
    simp only []
    rw [if_pos hrs]
  · intro hrs
    simp only []
    rw [if_neg hrs]

/-- Witness for C3 at st = ⟨5, 3, 3⟩, len = 4, sync present, back-end
success. -/
theorem C3_vfs_write_growth_witness :
    ((5 : Nat) < I63 ∧ (3 : Nat) < I63 ∧ (4 : Nat) < I63) ∧
    (((5 : Nat) + 4 > 3 →
      (vfs_write ⟨5, 3, 3⟩ 4 false true 4).st.size = 5 + 4 ∧
      (vfs_write ⟨5, 3, 3⟩ 4 false true 4).events =
        (if (true : Bool) = true then [WriteEvent.sync] else []) ++
          [WriteEvent.write 5 4]) ∧
    (vfs_write ⟨5, 3, 3⟩ 4 false true 4).st.st_size =
      (vfs_write ⟨5, 3, 3⟩ 4 false true 4).st.size ∧
    ((4 : Int) = -1 → (vfs_write ⟨5, 3, 3⟩ 4 false true 4).ret = 0) ∧
    ((4 : Int) ≠ -1 → (vfs_write ⟨5, 3, 3⟩ 4 false true 4).ret = ((4 : Nat) : Int))) :=
  ⟨⟨by norm_num [I63], by norm_num [I63], by norm_num [I63]⟩,
   C3_vfs_write_growth ⟨5, 3, 3⟩ 4 true 4 (by norm_num [I63]) (by norm_num [I63])
     (by norm_num [I63])⟩

/-- C9: for a non-read-only handle writing past the end, a failed back-end
write (-1) returns 0 bytes written, but the inode size and the tnode's
st_size remain grown to seek_pos + len: the pre-delegation growth is not
rolled back. -/
theorem C9_vfs_write_no_rollback (st : WriteState) (len : Nat) (has_sync : Bool)
    (hsp : st.seek_pos < I63) (hS : st.size < I63) (hl : len < I63)
    (hover : st.seek_pos + len > st.size) :
    (vfs_write st len false has_sync (-1)).ret = 0 ∧
    (vfs_write st len false has_sync (-1)).st.size = st.seek_pos + len ∧
    (vfs_write st len false has_sync (-1)).st.st_size = st.seek_pos + len := by
  rw [vfs_write_closed_form st len has_sync (-1) hsp hS hl]
  refine ⟨?_, ?_, ?_⟩
  · simp
  · simp only []
    rw [if_pos hover]
  · simp only []
    rw [if_pos hover]

/-- Witness for C9 at st = ⟨5, 3, 3⟩, len = 4, no sync. -/
theorem C9_vfs_write_no_rollback_witness :
    ((5 : Nat) < I63 ∧ (3 : Nat) < I63 ∧ (4 : Nat) < I63 ∧ (5 : Nat) + 4 > 3) ∧
    ((vfs_write ⟨5, 3, 3⟩ 4 false false (-1)).ret = 0 ∧
     (vfs_write ⟨5, 3, 3⟩ 4 false false (-1)).st.size = 5 + 4 ∧
     (vfs_write ⟨5, 3, 3⟩ 4 false false (-1)).st.st_size = 5 + 4) :=
  ⟨⟨by norm_num [I63], by norm_num [I63], by norm_num [I63], by norm_num⟩,
   C9_vfs_write_no_rollback ⟨5, 3, 3⟩ 4 false (by norm_num [I63]) (by norm_num [I63])
     (by norm_num [I63]) (by norm_num)⟩

/-- Inode type tags. Modelled from the spec: fs/vfs.h is absent from src/;
the spec gives the closed set {folder, file, mount-point, block-device,
character-device, pipe, symlink}. -/
inductive vfs_node_type_t
  | folder
  | file
  | mountpoint
  | block_device
  | char_device
  | pipe
  | symlink
deriving DecidableEq

/-- The tree state vfs_mount can touch: the inode currently bound at the
mount path (its type and the length of its child vector), whether that inode
has been freed, and whether a mountpoint back-reference has been recorded at
the path. -/
structure MountState where
  at_type : vfs_node_type_t
  at_child_len : Nat
  at_inode_freed : Bool
  mountpoint_set : Bool
deriving DecidableEq

/-- Embedding of vfs_mount (src/kernel/fs/vfs.c:230-271). The path/name
lookups are abstracted by their outcomes: fs_found (vfs_get_fs), istemp
(fs->istemp), dev_resolved and dev_type (resolution of the device path),
at_resolved (resolution of the mount path); root_type/root_child_len describe
the inode returned by fs->mount. Each failed check jumps to fail, returning
-1 with the tree untouched; on success the old inode is freed, replaced by
the provider root, and the mountpoint back-reference is set. -/
def vfs_mount (sigma : MountState) (fs_found istemp dev_resolved : Bool)
    (dev_type : vfs_node_type_t) (at_resolved : Bool)
    (root_type : vfs_node_type_t) (root_child_len : Nat) : Int × MountState :=
  if fs_found = false then (-1, sigma)
  else if istemp = false ∧ dev_resolved = false then (-1, sigma)
  else if istemp = false ∧ dev_type ≠ vfs_node_type_t.block_device then (-1, sigma)
  else if at_resolved = false then (-1, sigma)
  else if sigma.at_type ≠ vfs_node_type_t.folder ∨ sigma.at_child_len ≠ 0 then (-1, sigma)
  else (0, ⟨root_type, root_child_len, true, true⟩)

/-- C4: vfs_mount fails with -1 when the inode at the mount path is not a
folder or has children, and on every failure path (unknown provider,
unresolved device or path, wrong device type, non-empty or non-folder
target) the tree is unchanged: the old inode is not freed or replaced and no
mountpoint back-reference is set. -/
theorem C4_vfs_mount_fail_unchanged (sigma : MountState)
    (fs_found istemp dev_resolved : Bool) (dev_type : vfs_node_type_t)
    (at_resolved : Bool) (root_type : vfs_node_type_t) (root_child_len : Nat)
    (hclean : sigma.at_inode_freed = false ∧ sigma.mountpoint_set = false) :
    (sigma.at_type ≠ vfs_node_type_t.folder ∨ sigma.at_child_len ≠ 0 →
      vfs_mount sigma fs_found istemp dev_resolved dev_type at_resolved
        root_type root_child_len = (-1, sigma)) ∧
    ((vfs_mount sigma fs_found istemp dev_resolved dev_type at_resolved
        root_type root_child_len).1 = -1 →
      (vfs_mount sigma fs_found istemp dev_resolved dev_type at_resolved
          root_type root_child_len).2 = sigma ∧
      (vfs_mount sigma fs_found istemp dev_resolved dev_type at_resolved
          root_type root_child_len).2.at_inode_freed = false ∧
      (vfs_mount sigma fs_found istemp dev_resolved dev_type at_resolved
          root_type root_child_len).2.mountpoint_set = false) := by
  constructor
  · intro hbad
    unfold vfs_mount
    by_cases h1 : fs_found = false
    · rw [if_pos h1]
    · rw [if_neg h1]
      by_cases h2 : istemp = false ∧ dev_resolved = false
      · rw [if_pos h2]
      · rw [if_neg h2]
        by_cases h3 : istemp = false ∧ dev_type ≠ vfs_node_type_t.block_device
        · rw [if_pos h3]
        · rw [if_neg h3]
          by_cases h4 : at_resolved = false
          · rw [if_pos h4]
          · rw [if_neg h4, if_pos hbad]
  · intro hfail
    unfold vfs_mount at *
    by_cases h1 : fs_found = false
    · rw [if_pos h1] at *; exact ⟨rfl, hclean.1, hclean.2⟩
    · rw [if_neg h1] at *
      by_cases h2 : istemp = false ∧ dev_resolved = false
      · rw [if_pos h2] at *; exact ⟨rfl, hclean.1, hclean.2⟩
      · rw [if_neg h2] at *
        by_cases h3 : istemp = false ∧ dev_type ≠ vfs_node_type_t.block_device
        · rw [if_pos h3] at *; exact ⟨rfl, hclean.1, hclean.2⟩
        · rw [if_neg h3] at *
          by_cases h4 : at_resolved = false
          · rw [if_pos h4] at *; exact ⟨rfl, hclean.1, hclean.2⟩
          · rw [if_neg h4] at *
            by_cases h5 : sigma.at_type ≠ vfs_node_type_t.folder ∨ sigma.at_child_len ≠ 0
            · rw [if_pos h5] at *; exact ⟨rfl, hclean.1, hclean.2⟩
            · rw [if_neg h5] at hfail
              exact absurd hfail (by norm_num)

/-- Witness for C4: mounting ramfs (istemp, provider found, path resolved)
onto a non-empty folder (2 children) fails and leaves the tree unchanged. -/
theorem C4_vfs_mount_fail_unchanged_witness :
    ((⟨vfs_node_type_t.folder, 2, false, false⟩ : MountState).at_inode_freed = false ∧
     (⟨vfs_node_type_t.folder, 2, false, false⟩ : MountState).mountpoint_set = false) ∧
    (((⟨vfs_node_type_t.folder, 2, false, false⟩ : MountState).at_type ≠
        vfs_node_type_t.folder ∨
      (⟨vfs_node_type_t.folder, 2, false, false⟩ : MountState).at_child_len ≠ 0 →
      vfs_mount ⟨vfs_node_type_t.folder, 2, false, false⟩ true true false
        vfs_node_type_t.folder true vfs_node_type_t.folder 0 =
        (-1, ⟨vfs_node_type_t.folder, 2, false, false⟩)) ∧
    ((vfs_mount ⟨vfs_node_type_t.folder, 2, false, false⟩ true true false
        vfs_node_type_t.folder true vfs_node_type_t.folder 0).1 = -1 →
      (vfs_mount ⟨vfs_node_type_t.folder, 2, false, false⟩ true true false
          vfs_node_type_t.folder true vfs_node_type_t.folder 0).2 =
        ⟨vfs_node_type_t.folder, 2, false, false⟩ ∧
      (vfs_mount ⟨vfs_node_type_t.folder, 2, false, false⟩ true true false
          vfs_node_type_t.folder true vfs_node_type_t.folder 0).2.at_inode_freed = false ∧
      (vfs_mount ⟨vfs_node_type_t.folder, 2, false, false⟩ true true false
          vfs_node_type_t.folder true vfs_node_type_t.folder 0).2.mountpoint_set = false)) :=
  ⟨⟨rfl, rfl⟩,
   C4_vfs_mount_fail_unchanged ⟨vfs_node_type_t.folder, 2, false, false⟩ true true false
     vfs_node_type_t.folder true vfs_node_type_t.folder 0 ⟨rfl, rfl⟩⟩

/-- Result of vfs_unlink for a path that resolves: the int64_t return value,
the tnode's st_nlink after the call, and whether the provider's rmnode ran. -/
structure UnlinkResult where
  ret : Int
  st_nlink : Nat
  rmnode_called : Bool
deriving DecidableEq

/-- Embedding of vfs_unlink (src/kernel/fs/vfs.c:323-360) for a path that
resolves to a tnode with link count st_nlink, whose inode has the given
refcount; has_rmnode states that fs->rmnode is non-NULL. More than one link,
or zero links, fail with -1 leaving the tnode alone; otherwise st_nlink is
cleared and rmnode runs when the refcount is 0 and the callback exists. -/
def vfs_unlink (st_nlink : Nat) (refcount : Int) (has_rmnode : Bool) : UnlinkResult :=
  if st_nlink > 1 then ⟨-1, st_nlink, false⟩
  else if st_nlink = 0 then ⟨-1, st_nlink, false⟩
  else
    if refcount = 0 ∧ has_rmnode = true then ⟨0, 0, true⟩ else ⟨0, 0, false⟩

/-- C5: for a path that resolves, vfs_unlink succeeds iff st_nlink = 1,
failing with -1 and an unchanged tnode when st_nlink > 1 or st_nlink = 0; on
success it clears st_nlink and invokes rmnode exactly when the inode's
refcount is 0 and the provider supplies rmnode. -/
theorem C5_vfs_unlink_nlink (st_nlink : Nat) (refcount : Int) (has_rmnode : Bool) :
    ((vfs_unlink st_nlink refcount has_rmnode).ret = 0 ↔ st_nlink = 1) ∧
    (st_nlink ≠ 1 →
      vfs_unlink st_nlink refcount has_rmnode = ⟨-1, st_nlink, false⟩) ∧
    (st_nlink = 1 →
      (vfs_unlink st_nlink refcount has_rmnode).st_nlink = 0 ∧
      ((vfs_unlink st_nlink refcount has_rmnode).rmnode_called = true ↔
        refcount = 0 ∧ has_rmnode = true)) := by
  refine ⟨?_, ?_, ?_⟩
  · unfold vfs_unlink
    by_cases h1 : st_nlink > 1
    · rw [if_pos h1]
      constructor
      · intro hcon; exact absurd hcon (by norm_num)
      · intro hcon; omega
    · rw [if_neg h1]
      by_cases h2 : st_nlink = 0
      · rw [if_pos h2]
        constructor
        · intro hcon; exact absurd hcon (by norm_num)
        · intro hcon; omega
      · rw [if_neg h2]
        by_cases h3 : refcount = 0 ∧ has_rmnode = true
        · rw [if_pos h3]; constructor
          · intro _; omega
          · intro _; rfl
        · rw [if_neg h3]; constructor
          · intro _; omega
          · intro _; rfl
  · intro hne
    unfold vfs_unlink
    by_cases h1 : st_nlink > 1
    · rw [if_pos h1]
    · rw [if_neg h1, if_pos (by omega)]
  · intro hone
    subst hone
    unfold vfs_unlink
    rw [if_neg (by norm_num), if_neg (by norm_num)]
    by_cases h3 : refcount = 0 ∧ has_rmnode = true
    · rw [if_pos h3]
      exact ⟨rfl, by constructor <;> intro <;> [exact h3; rfl]⟩
    · rw [if_neg h3]
      refine ⟨rfl, ?_⟩
      constructor
      · intro hcon; exact absurd hcon (by norm_num)
      · intro hcon; exact absurd hcon h3

/-- Witness for C5 at st_nlink = 1, refcount = 0, rmnode present. -/
theorem C5_vfs_unlink_nlink_witness :
    ((vfs_unlink 1 0 true).ret = 0 ↔ (1 : Nat) = 1) ∧
    ((1 : Nat) ≠ 1 → vfs_unlink 1 0 true = ⟨-1, 1, false⟩) ∧
    ((1 : Nat) = 1 →
      (vfs_unlink 1 0 true).st_nlink = 0 ∧
      ((vfs_unlink 1 0 true).rmnode_called = true ↔ (0 : Int) = 0 ∧ (true : Bool) = true)) :=
  C5_vfs_unlink_nlink 1 0 true

/-- The effect of vfs_open / vfs_close on one inode, paired with the number
of live descriptors referencing it (a ghost count for the handle table
entries pointing at this inode). -/
structure RefState where
  refcount : Int
  descriptors : Nat
deriving DecidableEq

/-- A successful vfs_open increments the resolved inode's refcount by one
(src/kernel/fs/vfs.c:509) and inserts one descriptor for it into the handle
table (vfs.c:529). -/
def vfs_open_ref (sigma : RefState) : RefState :=
  ⟨sigma.refcount + 1, sigma.descriptors + 1⟩

/-- A successful vfs_close decrements the inode's refcount by one
(src/kernel/fs/vfs.c:552) and removes the descriptor from the handle table
(vfs.c:555). -/
def vfs_close_ref (sigma : RefState) : RefState :=
  ⟨sigma.refcount - 1, sigma.descriptors - 1⟩

/-- Open/close events touching one inode. -/
inductive RefOp
  | op_open
  | op_close
deriving DecidableEq

/-- Fold a sequence of open/close events over the inode's state. -/
def apply_ref_ops : List RefOp → RefState → RefState
  | [], sigma => sigma
  | RefOp.op_open :: l, sigma => apply_ref_ops l (vfs_open_ref sigma)
  | RefOp.op_close :: l, sigma => apply_ref_ops l (vfs_close_ref sigma)

/-- A sequence is valid when every close happens while a live descriptor
exists (vfs_close fails before touching the refcount when
vfs_handle_to_fd finds no descriptor). -/
def valid_ref_ops : List RefOp → Nat → Bool
  | [], _ => true
  | RefOp.op_open :: l, d => valid_ref_ops l (d + 1)
  | RefOp.op_close :: l, d => decide (0 < d) && valid_ref_ops l (d - 1)

theorem apply_ref_ops_invariant (l : List RefOp) (sigma : RefState)
    (hv : valid_ref_ops l sigma.descriptors = true)
    (hinv : sigma.refcount = (sigma.descriptors : Int)) :
    (apply_ref_ops l sigma).refcount = ((apply_ref_ops l sigma).descriptors : Int) := by
  induction l generalizing sigma with
  | nil => exact hinv
  | cons op l ih =>
    cases op with
    | op_open =>
      exact ih (vfs_open_ref sigma) hv (by simp [vfs_open_ref, hinv])
    | op_close =>
      simp only [valid_ref_ops, Bool.and_eq_true, decide_eq_true_eq] at hv
      refine ih (vfs_close_ref sigma) hv.2 ?_
      simp only [vfs_close_ref, hinv]
      have hd : 0 < sigma.descriptors := hv.1
      push_cast [Nat.cast_sub (by omega : 1 ≤ sigma.descriptors)]
      ring

/-- C6: a successful open followed by a close of the returned handle restores
the inode's refcount exactly (open adds one, close subtracts one), and along
any valid sequence of opens and closes the refcount stays equal to the number
of live descriptors referencing the inode. -/
theorem C6_refcount_balance (sigma : RefState) (l : List RefOp)
    (hv : valid_ref_ops l sigma.descriptors = true)
    (hinv : sigma.refcount = (sigma.descriptors : Int)) :
    vfs_close_ref (vfs_open_ref sigma) = sigma ∧
    (apply_ref_ops l sigma).refcount = ((apply_ref_ops l sigma).descriptors : Int) := by
  constructor
  · simp [vfs_close_ref, vfs_open_ref]
  · exact apply_ref_ops_invariant l sigma hv hinv

/-- Witness for C6 at refcount 2 with 2 live descriptors and the event list
[open, open, close, close]. -/
theorem C6_refcount_balance_witness :
    (valid_ref_ops [RefOp.op_open, RefOp.op_open, RefOp.op_close, RefOp.op_close] 2 = true ∧
     (2 : Int) = ((2 : Nat) : Int)) ∧
    (vfs_close_ref (vfs_open_ref ⟨2, 2⟩) = ⟨2, 2⟩ ∧
     (apply_ref_ops [RefOp.op_open, RefOp.op_open, RefOp.op_close, RefOp.op_close]
        ⟨2, 2⟩).refcount =
       ((apply_ref_ops [RefOp.op_open, RefOp.op_open, RefOp.op_close, RefOp.op_close]
          ⟨2, 2⟩).descriptors : Int)) :=
  ⟨⟨by decide, by norm_num⟩,
   C6_refcount_balance ⟨2, 2⟩
     [RefOp.op_open, RefOp.op_open, RefOp.op_close, RefOp.op_close] (by decide) (by norm_num)⟩

/-- The next-handle counter: static size_t vfs_next_handle = VFS_MIN_HANDLE
(src/kernel/fs/vfs.c:58); its value after n successful opens, each of which
executes fh = vfs_next_handle++ (vfs.c:526). The minimum reserved value
VFS_MIN_HANDLE is a parameter vmin: fs/vfs.h, which fixes it, is absent
from src/. -/
def vfs_next_handle_after (vmin : Nat) : Nat → Nat
  | 0 => vmin % U64
  | n + 1 => (vfs_next_handle_after vmin n + 1) % U64

/-- The handle returned by the (n+1)-st successful open: the counter value
before that open's post-increment. -/
def vfs_handle_of_open (vmin n : Nat) : Nat := vfs_next_handle_after vmin n

theorem vfs_next_handle_after_eq (vmin k : Nat) (hv : vmin + k < U64) :
    ∀ i, i ≤ k → vfs_next_handle_after vmin i = vmin + i := by
  intro i hi
  induction i with
  | zero => simp [vfs_next_handle_after, Nat.mod_eq_of_lt (by omega : vmin < U64)]
  | succ n ih =>
    have hn := ih (by omega)
    simp only [vfs_next_handle_after, hn]
    rw [Nat.mod_eq_of_lt (by omega)]
    omega

/-- C7: as long as the counter does not exhaust the 64-bit space, the handles
returned by a sequence of successful opens are strictly increasing (hence
pairwise distinct), every one of them is at least the reserved minimum
VFS_MIN_HANDLE, and the counter only ever increments, by one per open. -/
theorem C7_handle_monotonicity (vmin k : Nat) (hv : vmin + k < U64) :
    (∀ i j, i < j → j < k → vfs_handle_of_open vmin i < vfs_handle_of_open vmin j) ∧
    (∀ i, i < k → vmin ≤ vfs_handle_of_open vmin i) ∧
    (∀ i, i < k → vfs_next_handle_after vmin (i + 1) = vfs_next_handle_after vmin i + 1) := by
  have he := vfs_next_handle_after_eq vmin k hv
  refine ⟨?_, ?_, ?_⟩
  · intro i j hij hjk
    unfold vfs_handle_of_open
    rw [he i (by omega), he j (by omega)]
    omega
  · intro i hik
    unfold vfs_handle_of_open
    rw [he i (by omega)]
    omega
  · intro i hik
    rw [he (i + 1) (by omega), he i (by omega)]
    omega

/-- Witness for C7 at vmin = 1024 and k = 3 opens. -/
theorem C7_handle_monotonicity_witness :
    (1024 : Nat) + 3 < U64 ∧
    ((∀ i j, i < j → j < 3 → vfs_handle_of_open 1024 i < vfs_handle_of_open 1024 j) ∧
     (∀ i, i < 3 → (1024 : Nat) ≤ vfs_handle_of_open 1024 i) ∧
     (∀ i, i < 3 →
       vfs_next_handle_after 1024 (i + 1) = vfs_next_handle_after 1024 i + 1)) :=
  ⟨by norm_num [U64], C7_handle_monotonicity 1024 3 (by norm_num [U64])⟩

/-- The first loop of vfs_get_parent_dir (src/kernel/fs/vfs.c:445-452)
overwrites each slash in the maximal trailing run with NUL, truncating the
copied string by one each time, and stops at the first non-slash character;
on the reversed character list this is dropping leading slashes. -/
def drop_slashes : List Char → List Char
  | [] => []
  | c :: r => if c = '/' then drop_slashes r else c :: r

/-- The parent buffer contents after the first loop of vfs_get_parent_dir:
the path with its maximal run of trailing slashes removed. -/
def vfs_strip_trailing (p : List Char) : List Char :=
  (drop_slashes p.reverse).reverse

/-- Index of the last '/' in the string, if any: where the second loop of
vfs_get_parent_dir (src/kernel/fs/vfs.c:461-467), scanning downward from the
end, writes its NUL. -/
def vfs_find_last_slash : List Char → Option Nat
  | [] => none
  | c :: r =>
    match vfs_find_last_slash r with
    | some j => some (j + 1)
    | none => if c = '/' then some 0 else none

/-- Outcome of vfs_get_parent_dir: the int64_t return value, the parent
buffer contents, and the currdir buffer contents (none when the strcpy to
currdir is skipped because no slash was found, idx < 0). -/
structure ParentDirResult where
  ret : Int
  parent : List Char
  currdir : Option (List Char)
deriving DecidableEq

/-- Embedding of vfs_get_parent_dir (src/kernel/fs/vfs.c:437-475) for
non-null path and buffers, strings as char lists without NUL. strcpy copies
path into parent; the first loop strips the trailing slashes; if at most one
character remains, parent is cleared to the empty string and -1 returned;
otherwise the second loop truncates parent at the last slash, currdir
receives the characters after that slash, an empty parent becomes "/", and 0
is returned. -/
def vfs_get_parent_dir (path : List Char) : ParentDirResult :=
  let stripped := vfs_strip_trailing path
  if stripped.length ≤ 1 then ⟨-1, [], none⟩
  else
    match vfs_find_last_slash stripped with
    | some j =>
      let par := stripped.take j
      ⟨0, if par.length = 0 then ['/'] else par, some (stripped.drop (j + 1))⟩
    | none => ⟨0, stripped, none⟩

theorem drop_slashes_of_head (l : List Char) (h : l.head? ≠ some '/') :
    drop_slashes l = l := by
  cases l with
  | nil => rfl
  | cons c r =>
    simp only [List.head?] at h
    rw [drop_slashes, if_neg (by intro hc; exact h (by rw [hc]))]

theorem strip_of_no_trailing (p : List Char) (h : p.getLast? ≠ some '/') :
    vfs_strip_trailing p = p := by
  unfold vfs_strip_trailing
  rw [drop_slashes_of_head _ (by rwa [List.head?_reverse]), List.reverse_reverse]

theorem find_none_of_not_mem (p : List Char) (h : '/' ∉ p) :
    vfs_find_last_slash p = none := by
  induction p with
  | nil => rfl
  | cons c r ih =>
    have hc : c ≠ '/' := by intro hc; exact h (by rw [hc]; exact List.mem_cons_self _ _)
    have hr : '/' ∉ r := by intro hr; exact h (List.mem_cons_of_mem _ hr)
    rw [vfs_find_last_slash, ih hr, if_neg hc]

theorem find_last_slash_append (pre cd : List Char) (h : '/' ∉ cd) :
    vfs_find_last_slash (pre ++ '/' :: cd) = some pre.length := by
  induction pre with
  | nil =>
    simp only [List.nil_append, List.length_nil]
    rw [vfs_find_last_slash, find_none_of_not_mem cd h, if_pos rfl]
  | cons c r ih =>
    simp only [List.cons_append, List.length_cons]
    rw [vfs_find_last_slash, ih]

theorem slash_decomp (p : List Char) (h : '/' ∈ p) :
    ∃ pre cd, p = pre ++ '/' :: cd ∧ '/' ∉ cd := by
  induction p with
  | nil => cases h
  | cons c r ih =>
    by_cases hr : '/' ∈ r
    · obtain ⟨pre, cd, heq, hnm⟩ := ih hr
      exact ⟨c :: pre, cd, by rw [heq]; rfl, hnm⟩
    · have hc : c = '/' := by
        rcases List.mem_cons.mp h with h1 | h2
        · exact h1.symm
        · exact absurd h2 hr
      exact ⟨[], r, by rw [hc]; rfl, hr⟩

/-- C8 counterexample: on the path "/" (which has no parent directory) the
routine does signal the root case with -1, but it sets parent to the EMPTY
string, not to "/" as the claim states: the strlen(parent)==0 fixup to "/"
sits on the success path only (src/kernel/fs/vfs.c:455-458 vs 472). -/
theorem C8_root_counterexample :
    (vfs_get_parent_dir ['/']).ret = -1 ∧ (vfs_get_parent_dir ['/']).parent ≠ ['/'] := by
  constructor
  · decide
  · decide

/-- C8 amended: for a non-null path with no trailing slash that contains a
slash, vfs_get_parent_dir returns 0, sets parent to the prefix of the path
before its last '/' (or to "/" when that prefix is empty) and currdir to the
nonempty slash-free component after it; when at most one character remains
there is no parent: the routine returns -1 and sets parent to the empty
string (not "/"). -/
theorem C8_get_parent_dir_amended (p : List Char) (hnt : p.getLast? ≠ some '/') :
    ('/' ∈ p →
      ∃ pre cd, p = pre ++ '/' :: cd ∧ '/' ∉ cd ∧ cd ≠ [] ∧
        vfs_get_parent_dir p = ⟨0, if pre = [] then ['/'] else pre, some cd⟩) ∧
    (p.length ≤ 1 → vfs_get_parent_dir p = ⟨-1, [], none⟩) := by
  have hstrip : vfs_strip_trailing p = p := strip_of_no_trailing p hnt
  constructor
  · intro hmem
    obtain ⟨pre, cd, heq, hnm⟩ := slash_decomp p hmem
    have hcd : cd ≠ [] := by
      intro hnil
      rw [heq, hnil] at hnt
      exact hnt (by simp)
    refine ⟨pre, cd, heq, hnm, hcd, ?_⟩
    have hlen : ¬ (p.length ≤ 1) := by
      rw [heq]
      simp only [List.length_append, List.length_cons]
      have : 1 ≤ cd.length := List.length_pos.mpr hcd
      omega
    have hfind : vfs_find_last_slash p = some pre.length := by
      rw [heq]; exact find_last_slash_append pre cd hnm
    unfold vfs_get_parent_dir
    rw [hstrip, if_neg hlen, hfind]
    simp only []
    have htake : p.take pre.length = pre := by
      rw [heq]; exact List.take_left pre ('/' :: cd)
    have hdrop : p.drop (pre.length + 1) = cd := by
      rw [heq]
      have hassoc : pre ++ '/' :: cd = (pre ++ ['/']) ++ cd := by simp
      rw [hassoc]
      have hlen2 : (pre ++ ['/']).length = pre.length + 1 := by simp
      rw [show pre.length + 1 = (pre ++ ['/']).length from hlen2.symm]
      exact List.drop_left _ _
    rw [htake, hdrop]
    by_cases hpre : pre = []
    · rw [if_pos (by rw [hpre]; rfl), if_pos hpre]
    · rw [if_neg (by intro hc; exact hpre (List.length_eq_zero.mp hc)), if_neg hpre]
  · intro hlen
    unfold vfs_get_parent_dir
    rw [hstrip, if_pos hlen]

/-- Witness for the amended C8 at path "/a". -/
theorem C8_get_parent_dir_amended_witness :
    (['/', 'a'].getLast? ≠ some '/') ∧
    (('/' ∈ ['/', 'a'] →
      ∃ pre cd, ['/', 'a'] = pre ++ '/' :: cd ∧ '/' ∉ cd ∧ cd ≠ [] ∧
        vfs_get_parent_dir ['/', 'a'] = ⟨0, if pre = [] then ['/'] else pre, some cd⟩) ∧
    (['/', 'a'].length ≤ 1 → vfs_get_parent_dir ['/', 'a'] = ⟨-1, [], none⟩)) :=
  ⟨by decide, C8_get_parent_dir_amended ['/', 'a'] (by decide)⟩
